import Mathlib

/-!
Verification development for the pr-messaging-bot repository.

The definitions below are a shallow embedding of the TypeScript sources:
  src/formatters.ts, src/user-mapping.ts, src/storage.ts, src/slack.ts
and the reconciliation engine in src/index.ts (updateRecord, recoverRecord,
createRecord, executeSync, processKeywordComment, forceUpdateEvents).

JavaScript truthiness is modelled explicitly wherever the source relies on
it: an empty string, the number 0, undefined and null are falsy.  Optional
values become Option, thrown exceptions become Except, and asynchronous
transport calls become explicit collaborator functions passed in as data.
-/

namespace PRBot

/-! ### String inclusion, modelling JavaScript String.prototype.includes -/

/-- Substring test on character lists: true when sub occurs contiguously. -/
def charsIncl (sub : List Char) : List Char → Bool
  | [] => sub.isEmpty
  | c :: rest => sub.isPrefixOf (c :: rest) || charsIncl sub rest

/-- Model of the JavaScript call s.includes sub. -/
def strIncl (s sub : String) : Bool :=
  charsIncl sub.toList s.toList

theorem isPrefixOf_append_self (l t : List Char) : l.isPrefixOf (l ++ t) = true := by
  induction l with
  | nil => simp [List.isPrefixOf]
  | cons a l ih => simp [List.isPrefixOf, ih]

theorem charsIncl_append (sub pre suf : List Char) :
    charsIncl sub (pre ++ sub ++ suf) = true := by
  induction pre with
  | nil =>
    cases h : sub ++ suf with
    | nil =>
      rcases List.append_eq_nil.mp h with ⟨h1, h2⟩
      simp only [List.nil_append, h, h1, h2, charsIncl, List.isEmpty_nil]
    | cons c rest =>
      have hpre : sub.isPrefixOf (sub ++ suf) = true := isPrefixOf_append_self sub suf
      simp only [List.nil_append]
      rw [h] at hpre ⊢
      simp [charsIncl, hpre]
  | cons c pre ih =>
    have h2 : (c :: pre) ++ sub ++ suf = c :: (pre ++ sub ++ suf) := by simp
    rw [h2]
    simp only [charsIncl]
    rw [ih]
    simp

theorem strIncl_of_append (a sub b : String) :
    strIncl (a ++ sub ++ b) sub = true := by
  unfold strIncl
  have h : (a ++ sub ++ b).toList = a.toList ++ sub.toList ++ b.toList := by
    simp [String.toList]
  rw [h]
  exact charsIncl_append sub.toList a.toList b.toList

/-! ### src/user-mapping.ts -/

/-- github login to slack handle mapping, as parsed from the YAML file. -/
def UserMap := List (String × String)

/-- Association lookup mirroring the JavaScript property access userMap[login]. -/
def lookupStr : List (String × String) → String → Option String
  | [], _ => none
  | (k, v) :: t, key => if k = key then some v else lookupStr t key

/-- Model of mapUser from src/user-mapping.ts.  The source reads
    userMap[githubLogin] and tests it for truthiness, so an entry whose
    value is the empty string falls back exactly like a missing entry. -/
def mapUser (userMap : UserMap) (githubLogin : String) : String :=
  match lookupStr userMap githubLogin with
  | some slack => if slack = "" then "@" ++ githubLogin else "@" ++ slack
  | none => "@" ++ githubLogin

/-! ### src/formatters.ts -/

inductive ReviewStatus
  | approved
  | changes_requested
  | pending
deriving DecidableEq, Repr

inductive CheckStatus
  | success
  | failure
  | pending
deriving DecidableEq, Repr

structure ReviewerState where
  login : String
  status : ReviewStatus
deriving DecidableEq, Repr

structure CheckRunState where
  name : String
  status : CheckStatus
deriving DecidableEq, Repr

structure PullRequestState where
  owner : String
  repo : String
  number : Nat
  title : String
  url : String
  author : String
  merged : Bool
  closed : Bool
  reviewers : List ReviewerState
  checks : List CheckRunState
deriving DecidableEq, Repr

def reviewerEmoji : ReviewStatus → String
  | .approved => "✅"
  | .changes_requested => "❌"
  | .pending => "🟡"

def checkEmoji : CheckStatus → String
  | .success => "✅"
  | .failure => "❌"
  | .pending => "🕒"

/-- The work-item key owner/repo#number used throughout the source. -/
def prKeyOf (owner repo : String) (number : Nat) : String :=
  owner ++ "/" ++ repo ++ "#" ++ toString number

/-- Model of buildMainMessage from src/formatters.ts. -/
def buildMainMessage (state : PullRequestState) (mapping : UserMap) : String :=
  let header := "[" ++ state.owner ++ "/" ++ state.repo ++ "] – " ++ state.title
    ++ " (#" ++ toString state.number ++ ") " ++ state.url
  let author := "Author: " ++ mapUser mapping state.author
  let reviewersLine :=
    if state.reviewers.length = 0 then "Reviewers: (none)"
    else "Reviewers: " ++ String.intercalate ", "
      (state.reviewers.map
        (fun r => mapUser mapping r.login ++ " " ++ reviewerEmoji r.status))
  let totalChecks := state.checks.length
  let passed := (state.checks.filter (fun c => c.status = .success)).length
  let statusLine := "Status: " ++ toString passed ++ "/" ++ toString totalChecks
    ++ " checks passed"
  let lifecycleTag :=
    if state.merged then "Merged ✅ | "
    else if state.closed ∧ ¬state.merged then "Closed ❌ | "
    else ""
  let key := prKeyOf state.owner state.repo state.number
  let marker := "<!-- pr-messaging-bot:" ++ key ++ " -->"
  lifecycleTag ++ header ++ "\n" ++ author ++ "\n" ++ reviewersLine ++ "\n"
    ++ statusLine ++ "\n" ++ marker

/-- Model of buildThreadMessage from src/formatters.ts. -/
def buildThreadMessage (state : PullRequestState) : String :=
  if state.checks.length = 0 then "No checks reported."
  else
    let lines := String.intercalate "\n"
      (state.checks.map (fun c => checkEmoji c.status ++ " " ++ c.name))
    let total := state.checks.length
    let passed := (state.checks.filter (fun c => c.status = .success)).length
    let failed := (state.checks.filter (fun c => c.status = .failure)).length
    let pending := total - passed - failed
    "Checks breakdown (passed/failed/pending): " ++ toString passed ++ "/"
      ++ toString failed ++ "/" ++ toString pending ++ "\n" ++ lines

/-- Model of buildKeywordCommentMessage from src/formatters.ts.
    String.length counts characters where JavaScript counts UTF-16 units;
    the claims under verification do not depend on that distinction. -/
def buildKeywordCommentMessage (owner repo : String) (prNumber commentId : Nat)
    (author body : String) (url : Option String) : String :=
  let trimmed := if 400 < body.length then (body.take 397).push '…' else body
  let header := "Comment by @" ++ author
  let linkPart := match url with
    | some u => if u = "" then "" else " – " ++ u
    | none => ""
  let key := "comment:" ++ owner ++ "/" ++ repo ++ "#" ++ toString prNumber
    ++ ":" ++ toString commentId
  let marker := "<!-- pr-messaging-bot:" ++ key ++ " -->"
  header ++ linkPart ++ "\n" ++ trimmed ++ "\n" ++ marker

/-! ### src/slack.ts — message decoding -/

/-- A Block Kit text value: either a plain string or an object carrying an
    optional text property.  This covers the two shapes the source code of
    extractTextFromBlocks distinguishes; values of any other shape
    contribute nothing there, exactly like an absent entry. -/
inductive TextObj
  | str (s : String)
  | obj (t : Option String)
deriving DecidableEq, Repr

/-- A Block Kit block restricted to the fields the source reads. -/
structure Block where
  text : Option TextObj
  fields : Option (List (Option TextObj))
  elements : Option (List (Option TextObj))
deriving DecidableEq, Repr

structure SlackMessage where
  ts : Option String
  text : Option String
  blocks : Option (List Block)
  thread_ts : Option String
  reply_count : Option Nat
deriving DecidableEq, Repr

/-- Shared truthiness filter used by extractTextFromBlocks for the entries
    of text, fields and elements: a string is pushed when non-empty, an
    object pushes its text property when that is a non-empty string. -/
def entryText : Option TextObj → Option String
  | none => none
  | some (.str s) => if s = "" then none else some s
  | some (.obj t) =>
    match t with
    | some s => if s = "" then none else some s
    | none => none

def blockParts (b : Block) : List String :=
  (entryText b.text).toList
    ++ (b.fields.getD []).filterMap entryText
    ++ (b.elements.getD []).filterMap entryText

/-- Model of extractTextFromBlocks from src/slack.ts. -/
def extractTextFromBlocks (blocks : Option (List Block)) : String :=
  match blocks with
  | none => ""
  | some bs => String.intercalate "\n" (bs.flatMap blockParts)

/-- Model of getPlainTextFromMessage from src/slack.ts: the classic text
    field and the block derived text, empty components filtered out. -/
def getPlainTextFromMessage (m : SlackMessage) : String :=
  let base := m.text.getD ""
  let blocks := extractTextFromBlocks m.blocks
  String.intercalate "\n" (([base, blocks]).filter (fun s => s ≠ ""))

/-! ### src/slack.ts — history scan (iterateHistory, iterateThreadReplies,
    findMessageByKey).  The transport is modelled as data: the list of
    successive conversations.history responses this call would receive, and
    a function giving the conversations.replies response for a parent ts.
    A response with ok = false makes the wrapped call throw. -/

structure HistoryPage where
  ok : Bool
  error : Option String
  messages : List SlackMessage
  has_more : Bool
  next_cursor : Option String
deriving Repr

structure RepliesResp where
  ok : Bool
  error : Option String
  messages : List SlackMessage
deriving Repr

structure ChannelTransport where
  pages : List HistoryPage
  replies : String → RepliesResp

/-- Truthiness of message.ts as a JavaScript condition. -/
def tsTruthy (m : SlackMessage) : Bool :=
  match m.ts with
  | some s => s ≠ ""
  | none => false

/-- Truthiness of message.reply_count, used to decide whether to fetch
    thread replies. -/
def rcTruthy (m : SlackMessage) : Bool :=
  match m.reply_count with
  | some n => n ≠ 0
  | none => false

def cursorTruthy : Option String → Bool
  | some s => s ≠ ""
  | none => false

/-- Per-message body of the findMessageByKey loop: returns the resolved ts
    on a marker match (in the message itself or, when includeThread is set,
    in its fetched replies — the parent ts is returned in that case), none
    to continue scanning, and an error when the replies fetch fails. -/
def checkMessage (replies : String → RepliesResp) (marker : String)
    (includeThread : Bool) (m : SlackMessage) : Except String (Option String) :=
  let plain := getPlainTextFromMessage m
  if strIncl plain marker ∧ tsTruthy m then .ok m.ts
  else if includeThread ∧ rcTruthy m ∧ tsTruthy m then
    match m.ts with
    | some t =>
      let resp := replies t
      if resp.ok then
        if (resp.messages.drop 1).any
            (fun r => strIncl (getPlainTextFromMessage r) marker) then
          .ok (some t)
        else .ok none
      else .error (resp.error.getD "replies_failed")
    | none => .ok none
  else .ok none

/-- Outcome of consuming the messages of one history page. -/
inductive PageOut
  | found (ts : String)
  | limitHit
  | endPage
deriving DecidableEq, Repr

/-- Scan the messages of one page; the Nat in the result counts how many
    messages of the page were yielded to (and decoded by) the consumer.
    Mirrors the inner for-loop of iterateHistory together with the
    consumer loop of findMessageByKey: every yielded message increments
    scanned, and the generator returns once scanned reaches the limit. -/
def scanMsgs (replies : String → RepliesResp) (marker : String)
    (includeThread : Bool) :
    List SlackMessage → Nat → Except String (PageOut × Nat)
  | [], _ => .ok (.endPage, 0)
  | m :: rest, remaining =>
    match checkMessage replies marker includeThread m with
    | .error e => .error e
    | .ok (some t) => .ok (.found t, 1)
    | .ok none =>
      if remaining ≤ 1 then .ok (.limitHit, 1)
      else
        match scanMsgs replies marker includeThread rest (remaining - 1) with
        | .error e => .error e
        | .ok (o, n) => .ok (o, n + 1)

/-- Scan successive history pages while fewer than the limit messages have
    been scanned, mirroring the while-loop of iterateHistory.  An exhausted
    response list behaves like a transport returning an empty final page. -/
def scanPages (replies : String → RepliesResp) (marker : String)
    (includeThread : Bool) :
    List HistoryPage → Nat → Except String (Option String × Nat)
  | _, 0 => .ok (none, 0)
  | [], _ + 1 => .ok (none, 0)
  | p :: rest, remaining + 1 =>
    if p.ok then
      match scanMsgs replies marker includeThread p.messages (remaining + 1) with
      | .error e => .error e
      | .ok (.found t, n) => .ok (some t, n)
      | .ok (.limitHit, n) => .ok (none, n)
      | .ok (.endPage, n) =>
        if p.has_more ∧ cursorTruthy p.next_cursor then
          match scanPages replies marker includeThread rest (remaining + 1 - n) with
          | .error e => .error e
          | .ok (r, n2) => .ok (r, n + n2)
        else .ok (none, n)
    else .error (p.error.getD "history_failed")

/-- The marker fragment findMessageByKey searches for. -/
def markerFragmentOf (key : String) : String :=
  "pr-messaging-bot:" ++ key

/-- The body of the try-block of findMessageByKey: the full paginated scan,
    together with the number of history messages scanned.  The limit is
    clamped to at least 1, as in iterateHistory (Math.max(1, maxMessages)). -/
def findScan (tr : ChannelTransport) (key : String) (maxMessages : Nat)
    (includeThread : Bool) : Except String (Option String × Nat) :=
  scanPages tr.replies (markerFragmentOf key) includeThread tr.pages
    (max 1 maxMessages)

/-- Model of the lookup-cache read in findMessageByKey (lookupKey): an
    entry whose value is the empty string is falsy and treated as a miss. -/
def cacheLookup (cache : List (String × String)) (key : String) : Option String :=
  match lookupStr cache key with
  | some v => if v = "" then none else some v
  | none => none

/-- Model of SlackClient.findMessageByKey: cache short-circuit, then the
    history scan; any error thrown during the scan is caught and the
    function returns none. -/
def findMessageByKey (tr : ChannelTransport) (cache : List (String × String))
    (key : String) (maxMessages : Nat) (includeThread : Bool) : Option String :=
  match cacheLookup cache key with
  | some ts => some ts
  | none =>
    match findScan tr key maxMessages includeThread with
    | .ok (r, _) => r
    | .error _ => none

/-! ### src/storage.ts -/

/-- Correlation record, as in src/storage.ts (MessageRecord). -/
structure MessageRecord where
  channel : String
  ts : String
  thread_ts : String
  last_main : Option String
  last_thread : Option String
deriving DecidableEq, Repr

/-- Lookup in an insertion-ordered association list, mirroring Map.get. -/
def lookupKeyL : List (String × MessageRecord) → String → Option MessageRecord
  | [], _ => none
  | (k, v) :: t, key => if k = key then some v else lookupKeyL t key

/-- Map.set semantics: replace in place when the key exists, append when new. -/
def setKeyL : List (String × MessageRecord) → String → MessageRecord →
    List (String × MessageRecord)
  | [], key, v => [(key, v)]
  | (k, w) :: t, key, v =>
    if k = key then (key, v) :: t else (k, w) :: setKeyL t key v

/-- Map.delete semantics on a list with unique keys: drop the entry. -/
def removeKeyL : List (String × MessageRecord) → String →
    List (String × MessageRecord)
  | [], _ => []
  | (k, w) :: t, key => if k = key then t else (k, w) :: removeKeyL t key

/-- Model of the Storage class from src/storage.ts: an insertion-ordered
    map plus the configured capacity. -/
structure Storage where
  entries : List (String × MessageRecord)
  maxEntries : Nat
deriving DecidableEq, Repr

def Storage.empty (maxEntries : Nat) : Storage := ⟨[], maxEntries⟩

def Storage.get (s : Storage) (key : String) : Option MessageRecord :=
  lookupKeyL s.entries key

/-- Model of Storage.set: evict the oldest entry when inserting a new key
    at capacity.  The source guards the eviction with a truthiness test on
    the first key (if firstKey), so an oldest key that is the empty string
    is not evicted. -/
def Storage.set (s : Storage) (key : String) (v : MessageRecord) : Storage :=
  let cache := s.entries
  let cache1 :=
    if (lookupKeyL cache key).isSome = false ∧ s.maxEntries ≤ cache.length then
      match cache.head? with
      | some (fk, _) => if fk = "" then cache else removeKeyL cache fk
      | none => cache
    else cache
  { s with entries := setKeyL cache1 key v }

def Storage.delete (s : Storage) (key : String) : Storage :=
  { s with entries := removeKeyL s.entries key }

def Storage.size (s : Storage) : Nat := s.entries.length

/-- A mutating store operation; get is pure and does not change the store. -/
inductive StoreOp
  | set (key : String) (v : MessageRecord)
  | del (key : String)
deriving Repr

def applyOp (s : Storage) : StoreOp → Storage
  | .set key v => s.set key v
  | .del key => s.delete key

def runOps (s : Storage) (ops : List StoreOp) : Storage :=
  ops.foldl applyOp s

/-! ### src/index.ts — reconciliation engine.  The messaging client is
    passed as an abstract collaborator: findMessageByKey and
    findReplyByMarker never throw (they catch internally, see
    find_never_throws below), postMessage and updateMessage can throw. -/

/-- Abstract transport surface used by the engine: channel and key or ts
    arguments mirror the SlackClient method signatures. -/
structure BotTransport where
  findByKey : String → String → Option String
  findReply : String → String → String → Option String
  post : String → String → Option String → Except String String
  update : String → String → String → Except String String

/-- An attempted outbound transport call, recorded for the theorems about
    duplicate suppression and forced refresh. -/
inductive SlackCall
  | post (channel text : String) (threadTs : Option String)
  | update (channel ts text : String)
deriving DecidableEq, Repr

/-- The forceUpdateEvents set from src/index.ts. -/
def forceUpdateEvents : List String :=
  ["issue_comment.created", "issue_comment.edited", "issue_comment.deleted",
   "pull_request_review_comment.created", "pull_request_review_comment.edited",
   "pull_request_review_comment.deleted", "pull_request_review.submitted"]

/-- The condition event && forceUpdateEvents.has(event): an absent or
    empty-string event is falsy. -/
def isForced (event : Option String) : Bool :=
  match event with
  | some e => if e = "" then false else forceUpdateEvents.contains e
  | none => false

/-- Model of updateRecord from src/index.ts.  Returns the record state
    after the call (the source mutates the record in place, so mutations
    made before a throw persist), the attempted update calls, and the
    propagated error if a transport call threw. -/
def updateRecord (tr : BotTransport) (mapping : UserMap)
    (record : MessageRecord) (state : PullRequestState) (event : Option String) :
    MessageRecord × List SlackCall × Option String :=
  let main := buildMainMessage state mapping
  let thread := buildThreadMessage state
  let sameMain := record.last_main = some main
  let sameThread := record.last_thread = some thread
  let force := isForced event
  if ¬force ∧ sameMain ∧ sameThread then (record, [], none)
  else
    let (record1, calls1, err1) :=
      if force ∨ ¬sameMain then
        match tr.update record.channel record.ts main with
        | .ok _ => ({ record with last_main := some main },
                    [SlackCall.update record.channel record.ts main], none)
        | .error e => (record, [SlackCall.update record.channel record.ts main],
                       some e)
      else (record, [], none)
    match err1 with
    | some e => (record1, calls1, some e)
    | none =>
      if force ∨ ¬sameThread then
        match tr.update record1.channel record1.thread_ts thread with
        | .ok _ => ({ record1 with last_thread := some thread },
                    calls1 ++ [SlackCall.update record1.channel record1.thread_ts thread],
                    none)
        | .error e => (record1,
                       calls1 ++ [SlackCall.update record1.channel record1.thread_ts thread],
                       some e)
      else (record1, calls1, none)

/-- Model of recoverRecord from src/index.ts.  Returns ok none on a
    recovery miss; on a hit it re-renders and pushes both bodies, writes
    the record into storage and returns it.  Any transport throw
    propagates; the storage write happens only after every transport call
    succeeded. -/
def recoverRecord (tr : BotTransport) (mapping : UserMap) (channel : String)
    (storage : Storage) (key : String) (state : PullRequestState) :
    Except String (Option (MessageRecord × Storage)) :=
  match tr.findByKey channel key with
  | none => .ok none
  | some foundTs =>
    let thread := buildThreadMessage state
    let searchFragment :=
      if thread = "No checks reported." then "No checks reported."
      else "Checks breakdown (passed/failed/pending):"
    let threadFound := tr.findReply channel foundTs searchFragment
    let threadStep : Except String String :=
      match threadFound with
      | none => tr.post channel thread (some foundTs)
      | some t0 =>
        match tr.update channel t0 thread with
        | .ok _ => .ok t0
        | .error e => .error e
    match threadStep with
    | .error e => .error e
    | .ok threadTs =>
      let main := buildMainMessage state mapping
      match tr.update channel foundTs main with
      | .error e => .error e
      | .ok _ =>
        let record : MessageRecord :=
          { channel := channel, ts := foundTs, thread_ts := threadTs,
            last_main := some main, last_thread := some thread }
        .ok (some (record, storage.set key record))

/-- Model of createRecord from src/index.ts: post the summary, then the
    threaded detail; either throw propagates before any record exists. -/
def createRecord (tr : BotTransport) (mapping : UserMap) (channel : String)
    (state : PullRequestState) : Except String MessageRecord :=
  let main := buildMainMessage state mapping
  let thread := buildThreadMessage state
  match tr.post channel main none with
  | .error e => .error e
  | .ok mainTs =>
    match tr.post channel thread (some mainTs) with
    | .error e => .error e
    | .ok threadTs =>
      .ok { channel := channel, ts := mainTs, thread_ts := threadTs,
            last_main := some main, last_thread := some thread }

/-- Model of the reconciliation core of executeSync from src/index.ts,
    after the aggregated state has been fetched.  The try/catch around the
    cycle is represented by the Option String error component: a some error
    is the caught and logged failure.  In-place mutation of a record
    obtained from the store is rendered as writing the returned record
    state back under its key. -/
def executeSync (tr : BotTransport) (mapping : UserMap) (channel : String)
    (storage : Storage) (key : String) (state : PullRequestState)
    (event : Option String) : Storage × List SlackCall × Option String :=
  match storage.get key with
  | some record =>
    let (record1, calls, err) := updateRecord tr mapping record state event
    (storage.set key record1, calls, err)
  | none =>
    match recoverRecord tr mapping channel storage key state with
    | .error e => (storage, [], some e)
    | .ok (some (record, storage1)) => (storage1.set key record, [], none)
    | .ok none =>
      match createRecord tr mapping channel state with
      | .error e => (storage, [], some e)
      | .ok record => (storage.set key record, [], none)

/-! ### src/index.ts — keyword side-channel -/

/-- Lower-casing modelled character by character, as toLowerCase on the
    character sequence of a string. -/
def strToLower (s : String) : String :=
  String.mk (s.toList.map Char.toLower)

/-- Model of findMatchingKeyword: case-insensitive substring match over
    the configured keyword list; an empty list matches nothing. -/
def findMatchingKeyword (keywords : List String) (body : String) : Option String :=
  keywords.find? (fun kw => strIncl (strToLower body) (strToLower kw))

structure CommentInfo where
  id : Nat
  body : Option String
  userLogin : Option String
deriving Repr

/-- The anchor fragment cut from a comment url at its first hash sign;
    empty when the url has none (indexOf returning -1). -/
def hashAnchorFragment (url : String) : String :=
  String.mk (url.toList.dropWhile (fun c => c ≠ '#'))

/-- Model of processKeywordComment from src/index.ts.  The result carries
    the store state after the call, the attempted post and update calls,
    and an uncaught error: the placeholder post during parent recovery runs
    outside the try-block, so its throw propagates, while post and update
    failures inside the try-block are caught and logged. -/
def processKeywordComment (tr : BotTransport) (channel : String)
    (keywords : List String) (storage : Storage) (owner repo : String)
    (prNumber : Nat) (comment : CommentInfo) (buildUrl : Nat → String) :
    Storage × List SlackCall × Option String :=
  let body := comment.body.getD ""
  match findMatchingKeyword keywords body with
  | none => (storage, [], none)
  | some _ =>
    let commentId := comment.id
    let author :=
      match comment.userLogin with
      | some s => if s = "" then "unknown" else s
      | none => "unknown"
    let prKey := prKeyOf owner repo prNumber
    let mainRecord := storage.get prKey
    let afterParent :
        Except (List SlackCall × Option String) (MessageRecord × Storage × List SlackCall) :=
      match mainRecord with
      | some r => .ok (r, storage, [])
      | none =>
        match tr.findByKey channel prKey with
        | none => .error ([], none)
        | some foundTs =>
          let threadStep : Except (List SlackCall × Option String) (String × List SlackCall) :=
            match tr.findReply channel foundTs
                "Checks breakdown (passed/failed/pending):" with
            | some t0 => .ok (t0, [])
            | none =>
              let placeholder := "No checks reported."
              match tr.post channel placeholder (some foundTs) with
              | .ok ts => .ok (ts, [SlackCall.post channel placeholder (some foundTs)])
              | .error e =>
                .error ([SlackCall.post channel placeholder (some foundTs)], some e)
          match threadStep with
          | .error e => .error e
          | .ok (threadTs, calls) =>
            let parentRecord : MessageRecord :=
              { channel := channel, ts := foundTs, thread_ts := threadTs,
                last_main := none, last_thread := none }
            .ok (parentRecord, storage.set prKey parentRecord, calls)
    match afterParent with
    | .error (calls, e) => (storage, calls, e)
    | .ok (parentRecord, storage1, calls0) =>
      let commentKey := "comment:" ++ prKeyOf owner repo prNumber ++ ":"
        ++ toString commentId
      let existing := storage1.get commentKey
      let url := buildUrl commentId
      let messageText := buildKeywordCommentMessage owner repo prNumber commentId
        author body (some url)
      match existing with
      | none =>
        let anchorFragment := hashAnchorFragment url
        let replyTs :=
          if anchorFragment ≠ "" then
            tr.findReply channel parentRecord.ts anchorFragment
          else none
        match replyTs with
        | some rts =>
          let call := SlackCall.update channel rts messageText
          match tr.update channel rts messageText with
          | .ok _ =>
            let rec1 : MessageRecord :=
              { channel := channel, ts := parentRecord.ts, thread_ts := rts,
                last_main := some messageText, last_thread := none }
            (storage1.set commentKey rec1, calls0 ++ [call], none)
          | .error _ => (storage1, calls0 ++ [call], none)
        | none =>
          let call := SlackCall.post channel messageText (some parentRecord.ts)
          match tr.post channel messageText (some parentRecord.ts) with
          | .ok postTs =>
            let rec1 : MessageRecord :=
              { channel := channel, ts := parentRecord.ts, thread_ts := postTs,
                last_main := some messageText, last_thread := none }
            (storage1.set commentKey rec1, calls0 ++ [call], none)
          | .error _ => (storage1, calls0 ++ [call], none)
      | some ex =>
        let call := SlackCall.update ex.channel ex.thread_ts messageText
        match tr.update ex.channel ex.thread_ts messageText with
        | .ok _ =>
          let ex1 := { ex with last_main := some messageText }
          (storage1.set commentKey ex1, calls0 ++ [call], none)
        | .error _ => (storage1, calls0 ++ [call], none)

/-! ### src/slack.ts — withRateLimitRetry -/

/-- Outcome of one attempt of a transport operation: success, a rate-limit
    rejection carrying the transport-provided retry delay in seconds (none
    when absent or unparsable), or any other failure. -/
inductive OpResult (α : Type)
  | ok (v : α)
  | rateLimited (retryAfter : Option Nat)
  | fail (e : String)

/-- The wait computed by withRateLimitRetry: the truthiness test
    (retryAfterSec && !Number.isNaN(retryAfterSec)) makes both an absent
    and a zero delay fall back to 1 second; the result is in milliseconds. -/
def rateLimitWaitMs (retryAfter : Option Nat) : Nat :=
  (match retryAfter with
   | some s => if s = 0 then 1 else s
   | none => 1) * 1000

/-- Model of withRateLimitRetry from src/slack.ts.  The operation is a
    function from the attempt number to that attempt's outcome; the result
    pairs the final outcome with the list of sleeps performed (in ms). -/
def withRateLimitRetry {α : Type} (op : Nat → OpResult α) :
    Nat → Except String α × List Nat
  | attempt =>
    match op attempt with
    | .ok v => (.ok v, [])
    | .fail e => (.error e, [])
    | .rateLimited ra =>
      if attempt ≤ 3 then
        let waitMs := rateLimitWaitMs ra
        let (r, sleeps) := withRateLimitRetry op (attempt + 1)
        (r, waitMs :: sleeps)
      else (.error "ratelimited", [])
  termination_by attempt => 4 - attempt
  decreasing_by omega

/-! ### Claim C9 — identity-mapping fallback -/

/-- Claim C9, counterexample: the claim states that mapUser returns the
    mapped display handle whenever a mapping entry exists, but an entry
    whose value is the empty string is falsy, so the source falls back to
    the raw login instead of returning the display form of the mapped
    value. -/
theorem map_user_cex :
    lookupStr [("alice", "")] "alice" = some "" ∧
    mapUser [("alice", "")] "alice" = "@alice" ∧
    mapUser [("alice", "")] "alice" ≠ "@" ++ "" := by
  refine ⟨by decide, by decide, by decide⟩

/-- Claim C9, amended: mapUser returns the display form of the mapped
    handle when a mapping entry with a non-empty value exists, and falls
    back to the display form of the raw identity when the identity is
    unmapped or mapped to the empty string. -/
theorem map_user_fallback (m : UserMap) (g s : String) :
    (lookupStr m g = some s → s ≠ "" → mapUser m g = "@" ++ s) ∧
    (lookupStr m g = none → mapUser m g = "@" ++ g) ∧
    (lookupStr m g = some "" → mapUser m g = "@" ++ g) := by
  refine ⟨?_, ?_, ?_⟩ <;> intro h
  · intro hs; simp [mapUser, h, hs]
  · simp [mapUser, h]
  · simp [mapUser, h]

/-- Claim C9, witness for the amended theorem at concrete inputs: a mapped
    login and an unmapped one. -/
theorem map_user_fallback_witness :
    mapUser [("alice", "bob")] "alice" = "@" ++ "bob" ∧
    mapUser [] "carol" = "@" ++ "carol" :=
  ⟨(map_user_fallback [("alice", "bob")] "alice" "bob").1 (by decide) (by decide),
   (map_user_fallback [] "carol" "carol").2.1 rfl⟩

/-! ### Claim C6 — rate-limit retry policy -/

/-- Concrete operation for the C6 counterexample: the first attempt is
    rate limited with a transport-provided delay of 0 seconds, the second
    succeeds. -/
def op6cex : Nat → OpResult Nat :=
  fun n => if n = 1 then .rateLimited (some 0) else .ok 42

/-- Claim C6, counterexample: with a transport-provided retry delay of 0
    seconds the claim predicts a sleep of 0 ms, but the truthiness test in
    the source treats 0 as absent and sleeps 1000 ms. -/
theorem retry_policy_cex :
    withRateLimitRetry op6cex 1 = (.ok 42, [1000]) ∧ (1000 : Nat) ≠ 0 * 1000 := by
  constructor
  · simp [withRateLimitRetry, op6cex, rateLimitWaitMs]
  · decide

/-- Claim C6, amended: a rate-limited response causes a sleep for the
    transport-provided retry delay (1 second when the delay is absent,
    malformed, or zero — see rateLimitWaitMs) followed by a retry, capped
    at 3 retries total before the error surfaces; an operation succeeding
    on the second attempt returns the result after exactly one retry
    sleep; any non-rate-limit failure propagates immediately without
    retry. -/
theorem retry_policy {α : Type} (op : Nat → OpResult α) (v : α) (e : String)
    (ra : Option Nat) :
    (op 1 = .fail e → withRateLimitRetry op 1 = (.error e, [])) ∧
    (op 1 = .rateLimited ra → op 2 = .ok v →
      withRateLimitRetry op 1 = (.ok v, [rateLimitWaitMs ra])) ∧
    ((∀ i, 1 ≤ i → i ≤ 4 → op i = .rateLimited ra) →
      withRateLimitRetry op 1 =
        (.error "ratelimited",
         [rateLimitWaitMs ra, rateLimitWaitMs ra, rateLimitWaitMs ra])) := by
  refine ⟨?_, ?_, ?_⟩
  · intro h; simp [withRateLimitRetry, h]
  · intro h1 h2; simp [withRateLimitRetry, h1, h2]
  · intro h
    have h1 := h 1 (by omega) (by omega)
    have h2 := h 2 (by omega) (by omega)
    have h3 := h 3 (by omega) (by omega)
    have h4 := h 4 (by omega) (by omega)
    simp [withRateLimitRetry, h1, h2, h3, h4]

/-- Concrete operation for the C6 witness: rate limited once with no
    provided delay, then successful. -/
def op6wit : Nat → OpResult Nat :=
  fun n => if n = 1 then .rateLimited none else .ok 7

/-- Claim C6, witness: the amended theorem applied at op6wit. -/
theorem retry_policy_witness :
    withRateLimitRetry op6wit 1 = (.ok 7, [1000]) := by
  have h := (retry_policy op6wit 7 "x" none).2.1 rfl rfl
  simpa [rateLimitWaitMs] using h

/-! ### Claim C10 — the recovery scan never throws -/

/-- Claim C10: with a cache miss, findMessageByKey returns none both when
    the underlying scan threw a transport error and when the scan
    completed without a match, so a transport failure during recovery is
    indistinguishable from a genuine recovery miss at the call site. -/
theorem find_never_throws (tr : ChannelTransport) (cache : List (String × String))
    (key : String) (maxMessages : Nat) (includeThread : Bool) (e : String) (n : Nat) :
    cacheLookup cache key = none →
    (findScan tr key maxMessages includeThread = .error e →
      findMessageByKey tr cache key maxMessages includeThread = none) ∧
    (findScan tr key maxMessages includeThread = .ok (none, n) →
      findMessageByKey tr cache key maxMessages includeThread = none) := by
  intro hc
  constructor <;> intro h <;> simp [findMessageByKey, hc, h]

/-- Transport whose first history response reports a failure. -/
def trErr : ChannelTransport :=
  ⟨[⟨false, some "boom", [], false, none⟩], fun _ => ⟨true, none, []⟩⟩

/-- Claim C10, witness: a concrete erroring transport where the scan
    throws and findMessageByKey still returns none. -/
theorem find_never_throws_witness :
    findMessageByKey trErr [] "k" 5 false = none :=
  (find_never_throws trErr [] "k" 5 false "boom" 0 rfl).1 rfl

/-! ### Claim C1 — anchor round-trip -/

theorem marker_in_suffix (x k : String) :
    strIncl (x ++ (("<!-- pr-messaging-bot:" ++ k) ++ " -->"))
      ("pr-messaging-bot:" ++ k) = true := by
  have hdata : ("<!-- pr-messaging-bot:" : String).data
      = ("<!-- " : String).data ++ ("pr-messaging-bot:" : String).data := by decide
  unfold strIncl
  have h : (x ++ (("<!-- pr-messaging-bot:" ++ k) ++ " -->")).toList
      = (x.toList ++ ("<!-- " : String).toList)
        ++ ("pr-messaging-bot:" ++ k).toList ++ (" -->" : String).toList := by
    simp [String.toList, hdata]
  rw [h]
  exact charsIncl_append _ _ _

/-- The main summary body always contains the recovery marker fragment for
    the work-item key of the state it renders. -/
theorem buildMainMessage_contains_marker (state : PullRequestState) (mapping : UserMap) :
    strIncl (buildMainMessage state mapping)
      (markerFragmentOf (prKeyOf state.owner state.repo state.number)) = true := by
  unfold buildMainMessage markerFragmentOf
  exact marker_in_suffix _ _

theorem checkMessage_noThread_match (replies : String → RepliesResp) (marker : String)
    (m : SlackMessage) (t : String) :
    strIncl (getPlainTextFromMessage m) marker = true → m.ts = some t → t ≠ "" →
    checkMessage replies marker false m = .ok (some t) := by
  intro h1 h2 h3
  simp [checkMessage, h1, tsTruthy, h2, h3]

theorem checkMessage_noThread_nomatch (replies : String → RepliesResp) (marker : String)
    (m : SlackMessage) :
    strIncl (getPlainTextFromMessage m) marker = false →
    checkMessage replies marker false m = .ok none := by
  intro h
  simp [checkMessage, h]

/-- Scanning a page whose unique marker-bearing message is m yields the
    found outcome with the ts of m, provided the limit covers the page. -/
theorem scanMsgs_first_match (replies : String → RepliesResp) (marker : String)
    (msgs : List SlackMessage) (m : SlackMessage) (t : String) (remaining : Nat) :
    msgs.length ≤ remaining → m ∈ msgs →
    strIncl (getPlainTextFromMessage m) marker = true →
    (∀ m2 ∈ msgs, m2 ≠ m → strIncl (getPlainTextFromMessage m2) marker = false) →
    m.ts = some t → t ≠ "" →
    ∃ n, scanMsgs replies marker false msgs remaining = .ok (.found t, n) := by
  induction msgs generalizing remaining with
  | nil => intro _ hm; cases hm
  | cons x rest ih =>
    intro hlen hm hincl hothers hts htne
    by_cases hx : strIncl (getPlainTextFromMessage x) marker = true
    · have hxm : x = m := by
        by_contra hne
        have hfalse := hothers x (List.mem_cons_self x rest) hne
        rw [hfalse] at hx
        cases hx
      subst hxm
      exact ⟨1, by simp [scanMsgs, checkMessage_noThread_match replies marker x t hincl hts htne]⟩
    · have hx' : strIncl (getPlainTextFromMessage x) marker = false := by
        simpa using hx
      have hxnem : x ≠ m := by
        intro hcontra
        subst hcontra
        rw [hincl] at hx'
        cases hx'
      have hmrest : m ∈ rest := by
        cases hm with
        | head => exact absurd rfl hxnem
        | tail _ h => exact h
      have hrestpos : 0 < rest.length := List.length_pos.mpr (List.ne_nil_of_mem hmrest)
      have hlen' : rest.length + 1 ≤ remaining := by simpa using hlen
      have hrem2 : ¬(remaining ≤ 1) := by omega
      obtain ⟨n, hn⟩ := ih (remaining - 1) (by omega) hmrest hincl
        (fun m2 hm2 => hothers m2 (List.mem_cons_of_mem x hm2)) hts htne
      exact ⟨n + 1, by simp [scanMsgs, checkMessage_noThread_nomatch replies marker x hx', hrem2, hn]⟩

/-- Claim C1: for every pull-request state the summary body built by
    buildMainMessage contains the recovery marker for the state work-item
    key, and findMessageByKey, run with an empty lookup cache over a
    single history page containing exactly one message whose decoded text
    contains that marker, returns the ts of that message. -/
theorem anchor_roundtrip (state : PullRequestState) (mapping : UserMap)
    (tr : ChannelTransport) (key : String) (msgs : List SlackMessage)
    (m : SlackMessage) (t : String) (maxMessages : Nat) :
    strIncl (buildMainMessage state mapping)
      (markerFragmentOf (prKeyOf state.owner state.repo state.number)) = true ∧
    (tr.pages = [⟨true, none, msgs, false, none⟩] →
     m ∈ msgs →
     strIncl (getPlainTextFromMessage m) (markerFragmentOf key) = true →
     (∀ m2 ∈ msgs, m2 ≠ m →
       strIncl (getPlainTextFromMessage m2) (markerFragmentOf key) = false) →
     m.ts = some t → t ≠ "" →
     msgs.length ≤ maxMessages →
     findMessageByKey tr [] key maxMessages false = some t) := by
  constructor
  · exact buildMainMessage_contains_marker state mapping
  · intro hpages hm hincl hothers hts htne hlen
    obtain ⟨r, hr⟩ : ∃ r, max 1 maxMessages = r + 1 :=
      ⟨max 1 maxMessages - 1, by omega⟩
    have hcover : msgs.length ≤ r + 1 := by
      have : maxMessages ≤ max 1 maxMessages := le_max_right 1 maxMessages
      omega
    obtain ⟨n, hn⟩ := scanMsgs_first_match tr.replies (markerFragmentOf key)
      msgs m t (r + 1) hcover hm hincl hothers hts htne
    simp [findMessageByKey, cacheLookup, lookupStr, findScan, hpages, hr, scanPages, hn]

/-- Concrete single-page history for the C1 witness: one unrelated message
    followed by the recorded summary message for acme/widgets#7. -/
def c1State : PullRequestState :=
  ⟨"acme", "widgets", 7, "Title", "http://x", "alice", false, false, [], []⟩

def c1Summary : SlackMessage :=
  ⟨some "1700000000.000100", some (buildMainMessage c1State []), none, none, none⟩

def c1Other : SlackMessage :=
  ⟨some "1700000000.000200", some "unrelated chatter", none, none, none⟩

def c1Tr : ChannelTransport :=
  ⟨[⟨true, none, [c1Other, c1Summary], false, none⟩], fun _ => ⟨true, none, []⟩⟩

/-- Claim C1, witness: the round-trip theorem applied to a concrete page
    where the summary body was itself produced by buildMainMessage. -/
theorem anchor_roundtrip_witness :
    findMessageByKey c1Tr [] "acme/widgets#7" 10 false = some "1700000000.000100" :=
  (anchor_roundtrip c1State [] c1Tr "acme/widgets#7" [c1Other, c1Summary]
    c1Summary "1700000000.000100" 10).2 rfl (by decide) (by decide)
    (by decide) (by decide) (by decide) (by decide)

/-! ### Claim C7 — recovery scan bound -/

/-- Scanning a page with no marker match, with the thread option off,
    consumes min(page length, remaining) messages. -/
theorem scanMsgs_nomatch (replies : String → RepliesResp) (marker : String)
    (msgs : List SlackMessage) (remaining : Nat) :
    1 ≤ remaining →
    (∀ m ∈ msgs, strIncl (getPlainTextFromMessage m) marker = false) →
    scanMsgs replies marker false msgs remaining =
      (if msgs.length < remaining then .ok (.endPage, msgs.length)
       else .ok (.limitHit, remaining)) := by
  induction msgs generalizing remaining with
  | nil =>
    intro h1 _
    have hlt : ([] : List SlackMessage).length < remaining := by simp; omega
    rw [if_pos hlt]
    simp [scanMsgs]
  | cons x rest ih =>
    intro h1 hall
    have hx := hall x (List.mem_cons_self x rest)
    by_cases hrem : remaining ≤ 1
    · have hr1 : remaining = 1 := by omega
      subst hr1
      simp [scanMsgs, checkMessage_noThread_nomatch replies marker x hx]
    · have hrec := ih (remaining - 1) (by omega)
        (fun m hm => hall m (List.mem_cons_of_mem x hm))
      by_cases hc : rest.length < remaining - 1
      · rw [if_pos hc] at hrec
        have hgoal : (x :: rest).length < remaining := by simp; omega
        rw [if_pos hgoal]
        simp [scanMsgs, checkMessage_noThread_nomatch replies marker x hx, hrem, hrec]
      · rw [if_neg hc] at hrec
        have hgoal : ¬((x :: rest).length < remaining) := by simp; omega
        rw [if_neg hgoal]
        simp [scanMsgs, checkMessage_noThread_nomatch replies marker x hx, hrem, hrec]
        omega

/-- Scanning pages none of whose messages match, with the thread option
    off and every response ok, finds nothing and consumes at most the
    remaining budget. -/
theorem scanPages_nomatch (replies : String → RepliesResp) (marker : String)
    (pages : List HistoryPage) (remaining : Nat) :
    (∀ p ∈ pages, p.ok = true) →
    (∀ p ∈ pages, ∀ m ∈ p.messages, strIncl (getPlainTextFromMessage m) marker = false) →
    ∃ n, scanPages replies marker false pages remaining = .ok (none, n) ∧ n ≤ remaining := by
  induction pages generalizing remaining with
  | nil =>
    intro _ _
    cases remaining with
    | zero => exact ⟨0, rfl, Nat.le_refl 0⟩
    | succ r => exact ⟨0, rfl, Nat.zero_le _⟩
  | cons p rest ih =>
    intro hok hall
    cases remaining with
    | zero => exact ⟨0, rfl, Nat.le_refl 0⟩
    | succ r =>
      have hpok := hok p (List.mem_cons_self p rest)
      have hmsgs := hall p (List.mem_cons_self p rest)
      have hsm := scanMsgs_nomatch replies marker p.messages (r + 1) (by omega) hmsgs
      by_cases hlen : p.messages.length < r + 1
      · rw [if_pos hlen] at hsm
        by_cases hmore : p.has_more ∧ cursorTruthy p.next_cursor = true
        · obtain ⟨n2, hn2, hle2⟩ := ih (r + 1 - p.messages.length)
            (fun q hq => hok q (List.mem_cons_of_mem p hq))
            (fun q hq => hall q (List.mem_cons_of_mem p hq))
          refine ⟨p.messages.length + n2, ?_, by omega⟩
          simp [scanPages, hpok, hsm, hmore, hn2]
        · refine ⟨p.messages.length, ?_, by omega⟩
          simp [scanPages, hpok, hsm, hmore]
      · rw [if_neg hlen] at hsm
        refine ⟨r + 1, ?_, le_refl _⟩
        simp [scanPages, hpok, hsm]

/-- Transport with a single page of one anchor-free message, used to show
    the scan limit is clamped to at least 1. -/
def c7Tr : ChannelTransport :=
  ⟨[⟨true, none, [⟨some "111", some "hello", none, none, none⟩], false, none⟩],
   fun _ => ⟨true, none, []⟩⟩

/-- Claim C7, counterexample: with maxScanned = 0 and a one-message
    anchor-free history the claim requires that no message be scanned, but
    iterateHistory clamps the limit to Math.max(1, maxMessages) and scans
    one message. -/
theorem scan_bound_cex :
    findScan c7Tr "k" 0 false = .ok (none, 1) ∧ ¬(1 ≤ 0) := by
  exact ⟨rfl, by omega⟩

/-- Claim C7, amended: for 1 ≤ maxScanned < M and a history of M messages
    none of whose decoded texts contain the anchor (thread option off, all
    responses ok), findMessageByKey returns absent and the scan consumes
    at most maxScanned messages.  For maxScanned = 0 the source still
    scans one message because the limit is clamped to at least 1. -/
theorem scan_bound (tr : ChannelTransport) (key : String) (maxScanned : Nat) :
    1 ≤ maxScanned →
    (∀ p ∈ tr.pages, p.ok = true) →
    (∀ p ∈ tr.pages, ∀ m ∈ p.messages,
      strIncl (getPlainTextFromMessage m) (markerFragmentOf key) = false) →
    maxScanned < (tr.pages.flatMap (fun p => p.messages)).length →
    findMessageByKey tr [] key maxScanned false = none ∧
    ∃ n, findScan tr key maxScanned false = .ok (none, n) ∧ n ≤ maxScanned := by
  intro h1 hok hall _
  have hmax : max 1 maxScanned = maxScanned := by omega
  obtain ⟨n, hn, hle⟩ := scanPages_nomatch tr.replies (markerFragmentOf key)
    tr.pages (max 1 maxScanned) hok hall
  rw [hmax] at hn hle
  refine ⟨?_, n, ?_, hle⟩
  · simp [findMessageByKey, cacheLookup, lookupStr, findScan, hmax, hn]
  · simp [findScan, hmax, hn]

/-- Three-message anchor-free history split over two pages, for the C7
    witness. -/
def c7TrW : ChannelTransport :=
  ⟨[⟨true, none, [⟨some "1", some "alpha", none, none, none⟩,
                  ⟨some "2", some "beta", none, none, none⟩], true, some "cur"⟩,
    ⟨true, none, [⟨some "3", some "gamma", none, none, none⟩], false, none⟩],
   fun _ => ⟨true, none, []⟩⟩

/-- Claim C7, witness: the amended theorem at a concrete two-page history
    of three messages with maxScanned = 2. -/
theorem scan_bound_witness :
    findMessageByKey c7TrW [] "k" 2 false = none :=
  (scan_bound c7TrW "k" 2 (by omega) (by decide) (by decide) (by decide)).1

/-! ### Claims C2 and C3 — duplicate suppression and forced refresh -/

/-- After an error-free run of updateRecord the record carries exactly the
    freshly rendered bodies, whichever branches fired. -/
theorem updateRecord_ok_bodies (tr : BotTransport) (mapping : UserMap)
    (record r2 : MessageRecord) (state : PullRequestState) (event : Option String)
    (calls : List SlackCall) :
    updateRecord tr mapping record state event = (r2, calls, none) →
    r2.last_main = some (buildMainMessage state mapping) ∧
    r2.last_thread = some (buildThreadMessage state) := by
  intro h
  simp only [updateRecord] at h
  split at h
  · rename_i hcond
    obtain ⟨-, hm, ht⟩ := hcond
    injection h with h1 h2
    subst h1
    exact ⟨hm, ht⟩
  · rename_i hcond
    by_cases h1 : (isForced event = true) ∨
        ¬(record.last_main = some (buildMainMessage state mapping))
    · rw [if_pos h1] at h
      cases htr : tr.update record.channel record.ts (buildMainMessage state mapping) with
      | ok rr =>
        rw [htr] at h
        dsimp only at h
        by_cases h2 : (isForced event = true) ∨
            ¬(record.last_thread = some (buildThreadMessage state))
        · rw [if_pos h2] at h
          cases htr2 : tr.update record.channel record.thread_ts
              (buildThreadMessage state) with
          | ok rr2 =>
            rw [htr2] at h
            dsimp only at h
            injection h with ha hb
            subst ha
            exact ⟨rfl, rfl⟩
          | error e =>
            rw [htr2] at h
            dsimp only at h
            injection h with ha hb
            injection hb with hb1 hb2
            cases hb2
        · rw [if_neg h2] at h
          push_neg at h2
          injection h with ha hb
          subst ha
          exact ⟨rfl, h2.2⟩
      | error e =>
        rw [htr] at h
        dsimp only at h
        injection h with ha hb
        injection hb with hb1 hb2
        cases hb2
    · rw [if_neg h1] at h
      push_neg at h1
      dsimp only at h
      by_cases h2 : (isForced event = true) ∨
          ¬(record.last_thread = some (buildThreadMessage state))
      · rw [if_pos h2] at h
        cases htr2 : tr.update record.channel record.thread_ts
            (buildThreadMessage state) with
        | ok rr2 =>
          rw [htr2] at h
          dsimp only at h
          injection h with ha hb
          subst ha
          exact ⟨h1.2, rfl⟩
        | error e =>
          rw [htr2] at h
          dsimp only at h
          injection h with ha hb
          injection hb with hb1 hb2
          cases hb2
      · rw [if_neg h2] at h
        push_neg at h2
        injection h with ha hb
        subst ha
        exact ⟨h1.2, h2.2⟩

/-- Claim C2: when the record last-rendered bodies equal the freshly
    rendered ones and the trigger is not in the forced-refresh set,
    updateRecord makes zero transport calls and leaves the record
    unchanged; and after any error-free updateRecord run, a second run
    with the same state and a non-forced trigger is a no-op. -/
theorem duplicate_suppression (tr tr2 : BotTransport) (mapping : UserMap)
    (record r2 : MessageRecord) (state : PullRequestState)
    (event event2 : Option String) (calls : List SlackCall) :
    (record.last_main = some (buildMainMessage state mapping) →
     record.last_thread = some (buildThreadMessage state) →
     isForced event = false →
     updateRecord tr mapping record state event = (record, [], none)) ∧
    (updateRecord tr mapping record state event = (r2, calls, none) →
     isForced event2 = false →
     updateRecord tr2 mapping r2 state event2 = (r2, [], none)) := by
  constructor
  · intro hm ht hf
    simp [updateRecord, hm, ht, hf]
  · intro h hf2
    obtain ⟨hm2, ht2⟩ := updateRecord_ok_bodies tr mapping record r2 state event calls h
    simp [updateRecord, hm2, ht2, hf2]

/-- Shared concrete pull-request state for the engine witnesses. -/
def stateA : PullRequestState :=
  ⟨"o", "r", 1, "T", "u", "a", false, false, [], []⟩

/-- Transport whose update and post calls always succeed. -/
def trOkB : BotTransport :=
  ⟨fun _ _ => none, fun _ _ _ => none, fun _ _ _ => .ok "p", fun _ t _ => .ok t⟩

/-- Record already carrying the freshly rendered bodies for stateA. -/
def recFresh : MessageRecord :=
  ⟨"C", "M", "TH", some (buildMainMessage stateA []), some (buildThreadMessage stateA)⟩

/-- Claim C2, witness: both conjuncts at a concrete record, first with a
    non-forced lifecycle event, then a second run after the first. -/
theorem duplicate_suppression_witness :
    updateRecord trOkB [] recFresh stateA (some "pull_request.opened")
      = (recFresh, [], none) ∧
    updateRecord trOkB [] recFresh stateA none = (recFresh, [], none) := by
  have h1 := (duplicate_suppression trOkB trOkB [] recFresh recFresh stateA
    (some "pull_request.opened") none []).1 rfl rfl (by decide)
  exact ⟨h1, (duplicate_suppression trOkB trOkB [] recFresh recFresh stateA
    (some "pull_request.opened") none []).2 h1 (by decide)⟩

/-- Claim C3: for a bound record and an event in the forced-refresh set,
    updateRecord issues an update call for both the summary and the detail
    message — whatever the last-rendered bodies were, including when they
    are byte-identical to the fresh ones — and persists the rendered
    bodies into the record (given a transport whose updates succeed). -/
theorem forced_refresh (tr : BotTransport) (mapping : UserMap)
    (record : MessageRecord) (state : PullRequestState) (event : String) :
    isForced (some event) = true →
    (∀ c t x, ∃ r, tr.update c t x = .ok r) →
    updateRecord tr mapping record state (some event) =
      ({ record with last_main := some (buildMainMessage state mapping),
                     last_thread := some (buildThreadMessage state) },
       [SlackCall.update record.channel record.ts (buildMainMessage state mapping),
        SlackCall.update record.channel record.thread_ts (buildThreadMessage state)],
       none) := by
  intro hf htr
  obtain ⟨r1, h1⟩ := htr record.channel record.ts (buildMainMessage state mapping)
  obtain ⟨rr2, h2⟩ := htr record.channel record.thread_ts (buildThreadMessage state)
  simp [updateRecord, hf, h1, h2]

/-- Claim C3, witness: a forced comment event over a record whose bodies
    are byte-identical to the fresh renders still produces both update
    calls. -/
theorem forced_refresh_witness :
    updateRecord trOkB [] recFresh stateA (some "issue_comment.created")
      = ({ recFresh with last_main := some (buildMainMessage stateA []),
                         last_thread := some (buildThreadMessage stateA) },
         [SlackCall.update "C" "M" (buildMainMessage stateA []),
          SlackCall.update "C" "TH" (buildThreadMessage stateA)],
         none) :=
  forced_refresh trOkB [] recFresh stateA "issue_comment.created" (by decide)
    (fun _ t _ => ⟨t, rfl⟩)

/-! ### Claim C4 — record safety on transport failure -/

/-- When updateRecord propagates an error, the message identifiers and the
    detail body of the returned record are unchanged, and the summary body
    is either unchanged or already refreshed — the source mutates
    record.last_main before attempting the detail update. -/
theorem updateRecord_err_shape (tr : BotTransport) (mapping : UserMap)
    (record r2 : MessageRecord) (state : PullRequestState) (event : Option String)
    (calls : List SlackCall) (e : String) :
    updateRecord tr mapping record state event = (r2, calls, some e) →
    r2.channel = record.channel ∧ r2.ts = record.ts ∧
    r2.thread_ts = record.thread_ts ∧ r2.last_thread = record.last_thread ∧
    (r2.last_main = record.last_main ∨
     r2.last_main = some (buildMainMessage state mapping)) := by
  intro h
  simp only [updateRecord] at h
  split at h
  · injection h with h1 h2
    injection h2 with h2a h2b
    cases h2b
  · by_cases h1 : (isForced event = true) ∨
        ¬(record.last_main = some (buildMainMessage state mapping))
    · rw [if_pos h1] at h
      cases htr : tr.update record.channel record.ts (buildMainMessage state mapping) with
      | ok rr =>
        rw [htr] at h
        dsimp only at h
        by_cases h2 : (isForced event = true) ∨
            ¬(record.last_thread = some (buildThreadMessage state))
        · rw [if_pos h2] at h
          cases htr2 : tr.update record.channel record.thread_ts
              (buildThreadMessage state) with
          | ok rr2 =>
            rw [htr2] at h
            dsimp only at h
            injection h with ha hb
            injection hb with hb1 hb2
            cases hb2
          | error e2 =>
            rw [htr2] at h
            dsimp only at h
            injection h with ha hb
            subst ha
            exact ⟨rfl, rfl, rfl, rfl, Or.inr rfl⟩
        · rw [if_neg h2] at h
          injection h with ha hb
          injection hb with hb1 hb2
          cases hb2
      | error e1 =>
        rw [htr] at h
        dsimp only at h
        injection h with ha hb
        subst ha
        exact ⟨rfl, rfl, rfl, rfl, Or.inl rfl⟩
    · rw [if_neg h1] at h
      dsimp only at h
      by_cases h2 : (isForced event = true) ∨
          ¬(record.last_thread = some (buildThreadMessage state))
      · rw [if_pos h2] at h
        cases htr2 : tr.update record.channel record.thread_ts
            (buildThreadMessage state) with
        | ok rr2 =>
          rw [htr2] at h
          dsimp only at h
          injection h with ha hb
          injection hb with hb1 hb2
          cases hb2
        | error e2 =>
          rw [htr2] at h
          dsimp only at h
          injection h with ha hb
          subst ha
          exact ⟨rfl, rfl, rfl, rfl, Or.inl rfl⟩
      · rw [if_neg h2] at h
        injection h with ha hb
        injection hb with hb1 hb2
        cases hb2

/-- Record with stale bodies, bound in the store for the C4 scenario. -/
def c4Rec : MessageRecord := ⟨"C", "M", "TH", some "old", some "oldt"⟩

/-- Transport whose update of the detail message ts TH fails while every
    other call succeeds. -/
def trFailThread : BotTransport :=
  ⟨fun _ _ => none, fun _ _ _ => none, fun _ _ _ => .ok "p",
   fun _ t _ => if t = "TH" then .error "boom" else .ok t⟩

/-- Store holding the bound record for key o/r#1. -/
def store4 : Storage := ⟨[("o/r#1", c4Rec)], 500⟩

/-- Claim C4, counterexample: a transport failure on the detail update,
    after a successful summary update, leaves the cycle aborted with an
    error while the Correlation Record in the store has been mutated (its
    summary body was refreshed) — a partial record, contradicting the
    claim that a failing cycle never mutates the record. -/
theorem transport_failure_cex :
    (executeSync trFailThread [] "C" store4 "o/r#1" stateA none).2.2 = some "boom" ∧
    (executeSync trFailThread [] "C" store4 "o/r#1" stateA none).1 ≠ store4 := by
  constructor <;> decide

/-- Claim C4, amended: when a reconciliation cycle aborts on a transport
    error, the recovery and creation paths (key absent from the store)
    leave the Correlation Store unchanged; on the update path (key bound)
    no entry is added or removed and the bound record keeps its message
    identifiers and detail body, but its summary body may already have
    been refreshed when the summary update succeeded before the detail
    update failed. -/
theorem transport_failure_record_safety (tr : BotTransport) (mapping : UserMap)
    (channel : String) (storage : Storage) (key : String)
    (state : PullRequestState) (event : Option String) (e : String) :
    (executeSync tr mapping channel storage key state event).2.2 = some e →
    (storage.get key = none →
      (executeSync tr mapping channel storage key state event).1 = storage) ∧
    (∀ r, storage.get key = some r →
      ∃ r2, (executeSync tr mapping channel storage key state event).1
          = storage.set key r2 ∧
        r2.channel = r.channel ∧ r2.ts = r.ts ∧ r2.thread_ts = r.thread_ts ∧
        r2.last_thread = r.last_thread ∧
        (r2.last_main = r.last_main ∨
         r2.last_main = some (buildMainMessage state mapping))) := by
  intro herr
  cases hget : storage.get key with
  | none =>
    constructor
    · intro _
      simp only [executeSync, hget] at herr ⊢
      cases hrec : recoverRecord tr mapping channel storage key state with
      | error e1 => simp [hrec]
      | ok v =>
        cases v with
        | none =>
          cases hcre : createRecord tr mapping channel state with
          | error e2 => simp [hrec, hcre]
          | ok rec =>
            rw [hrec, hcre] at herr
            dsimp only at herr
            cases herr
        | some pr =>
          rw [hrec] at herr
          dsimp only at herr
          cases herr
    · intro r hr
      simp at hr
  | some r0 =>
    constructor
    · intro hnone
      simp at hnone
    · intro r hr
      have hreq : r = r0 := by injection hr with h; exact h.symm
      subst hreq
      rcases hu : updateRecord tr mapping r state event with ⟨r2, calls2, err2⟩
      have hes : executeSync tr mapping channel storage key state event
          = (storage.set key r2, calls2, err2) := by
        simp [executeSync, hget, hu]
      rw [hes] at herr
      dsimp only at herr
      subst herr
      obtain ⟨hc, hts, hth, hlt, hlm⟩ :=
        updateRecord_err_shape tr mapping r r2 state event calls2 e hu
      exact ⟨r2, by rw [hes], hc, hts, hth, hlt, hlm⟩

/-- Claim C4, witness: the amended theorem at the concrete failing cycle
    of the counterexample input — the store keeps the entry, identifiers
    and detail body are untouched, only the summary body may differ. -/
theorem transport_failure_record_safety_witness :
    ∃ r2, (executeSync trFailThread [] "C" store4 "o/r#1" stateA none).1
        = store4.set "o/r#1" r2 ∧
      r2.channel = c4Rec.channel ∧ r2.ts = c4Rec.ts ∧
      r2.thread_ts = c4Rec.thread_ts ∧ r2.last_thread = c4Rec.last_thread ∧
      (r2.last_main = c4Rec.last_main ∨
       r2.last_main = some (buildMainMessage stateA [])) :=
  (transport_failure_record_safety trFailThread [] "C" store4 "o/r#1" stateA
    none "boom" (by decide)).2 c4Rec (by decide)

/-! ### Claim C8 — keyword side-channel silent abort -/

/-- Claim C8: when a comment matches a configured keyword but no
    Correlation Record exists for the work-item key and the anchor scan
    returns absent, processKeywordComment returns without posting or
    updating anything and without writing any record. -/
theorem keyword_silent_abort (tr : BotTransport) (channel : String)
    (keywords : List String) (storage : Storage) (owner repo : String)
    (prNumber : Nat) (comment : CommentInfo) (buildUrl : Nat → String) (kw : String) :
    findMatchingKeyword keywords (comment.body.getD "") = some kw →
    storage.get (prKeyOf owner repo prNumber) = none →
    tr.findByKey channel (prKeyOf owner repo prNumber) = none →
    processKeywordComment tr channel keywords storage owner repo prNumber
      comment buildUrl = (storage, [], none) := by
  intro hkw hget hfind
  simp [processKeywordComment, hkw, hget, hfind]

/-- Transport where recovery always misses and outbound calls fail, for
    the C8 witness (none of them may be reached). -/
def trMiss : BotTransport :=
  ⟨fun _ _ => none, fun _ _ _ => none, fun _ _ _ => .error "no",
   fun _ _ _ => .error "no"⟩

/-- Claim C8, witness: a matching comment with an empty store and a missed
    recovery leaves the store untouched and makes no post or update call. -/
theorem keyword_silent_abort_witness :
    processKeywordComment trMiss "C" ["security"] (Storage.empty 500) "o" "r" 1
      ⟨5, some "a security issue", some "bob"⟩
      (fun i => "https://github.com/o/r/pull/1#issuecomment-" ++ toString i)
      = (Storage.empty 500, [], none) :=
  keyword_silent_abort trMiss "C" ["security"] (Storage.empty 500) "o" "r" 1
    ⟨5, some "a security issue", some "bob"⟩
    (fun i => "https://github.com/o/r/pull/1#issuecomment-" ++ toString i)
    "security" (by decide) rfl rfl

/-! ### Claim C5 — correlation store bound and FIFO eviction -/

def keysOf (l : List (String × MessageRecord)) : List String := l.map Prod.fst

theorem keysOf_append (a b : List (String × MessageRecord)) :
    keysOf (a ++ b) = keysOf a ++ keysOf b := by
  simp [keysOf]

theorem lookup_isSome_iff (l : List (String × MessageRecord)) (k : String) :
    (lookupKeyL l k).isSome = true ↔ k ∈ keysOf l := by
  induction l with
  | nil => simp [lookupKeyL, keysOf]
  | cons p t ih =>
    obtain ⟨k1, v1⟩ := p
    by_cases hk : k1 = k
    · subst hk
      simp [lookupKeyL, keysOf]
    · simp only [lookupKeyL, if_neg hk, keysOf, List.map_cons]
      rw [ih]
      constructor
      · intro h
        exact List.mem_cons_of_mem _ h
      · intro h
        rcases List.mem_cons.mp h with h1 | h2
        · exact absurd h1.symm hk
        · exact h2

theorem lookup_none_of_not_mem (l : List (String × MessageRecord)) (k : String) :
    k ∉ keysOf l → lookupKeyL l k = none := by
  intro h
  cases hl : lookupKeyL l k with
  | none => rfl
  | some v =>
    exact absurd ((lookup_isSome_iff l k).mp (by simp [hl])) h

theorem lookup_isSome_of_mem (l : List (String × MessageRecord)) (k : String) :
    k ∈ keysOf l → (lookupKeyL l k).isSome = true :=
  (lookup_isSome_iff l k).mpr

theorem setKeyL_not_mem (l : List (String × MessageRecord)) (k : String)
    (v : MessageRecord) : k ∉ keysOf l → setKeyL l k v = l ++ [(k, v)] := by
  induction l with
  | nil => intro _; rfl
  | cons p t ih =>
    intro h
    obtain ⟨k1, v1⟩ := p
    have h1 : k1 ≠ k := by
      intro hc
      exact h (by simp [keysOf, hc])
    have h2 : k ∉ keysOf t := by
      intro hc
      exact h (by simp [keysOf] at hc ⊢; exact Or.inr hc)
    simp [setKeyL, h1, ih h2]

theorem lookup_setKeyL_self (l : List (String × MessageRecord)) (k : String)
    (v : MessageRecord) : lookupKeyL (setKeyL l k v) k = some v := by
  induction l with
  | nil => simp [setKeyL, lookupKeyL]
  | cons p t ih =>
    obtain ⟨k1, v1⟩ := p
    by_cases hk : k1 = k
    · subst hk
      simp [setKeyL, lookupKeyL]
    · simp [setKeyL, lookupKeyL, hk, ih]

theorem length_setKeyL_of_mem (l : List (String × MessageRecord)) (k : String)
    (v : MessageRecord) : k ∈ keysOf l → (setKeyL l k v).length = l.length := by
  induction l with
  | nil => intro h; simp [keysOf] at h
  | cons p t ih =>
    intro h
    obtain ⟨k1, v1⟩ := p
    by_cases hk : k1 = k
    · subst hk
      simp [setKeyL]
    · have h2 : k ∈ keysOf t := by
        simp [keysOf] at h
        rcases h with h1 | h1
        · exact absurd h1.symm hk
        · simpa [keysOf] using h1
      simp [setKeyL, hk, ih h2]

theorem keysOf_setKeyL_mem (l : List (String × MessageRecord)) (k x : String)
    (v : MessageRecord) : x ∈ keysOf (setKeyL l k v) → x ∈ keysOf l ∨ x = k := by
  induction l with
  | nil => intro h; simp [setKeyL, keysOf] at h; exact Or.inr h
  | cons p t ih =>
    intro h
    obtain ⟨k1, v1⟩ := p
    by_cases hk : k1 = k
    · subst hk
      simp [setKeyL, keysOf] at h ⊢
      tauto
    · simp only [setKeyL, if_neg hk, keysOf, List.map_cons, List.mem_cons] at h ⊢
      rcases h with h1 | h2
      · exact Or.inl (Or.inl h1)
      · rcases ih h2 with h3 | h3
        · exact Or.inl (Or.inr h3)
        · exact Or.inr h3

theorem length_removeKeyL_le (l : List (String × MessageRecord)) (k : String) :
    (removeKeyL l k).length ≤ l.length := by
  induction l with
  | nil => simp [removeKeyL]
  | cons p t ih =>
    obtain ⟨k1, v1⟩ := p
    by_cases hk : k1 = k
    · subst hk; simp [removeKeyL]
    · simp [removeKeyL, hk]
      omega

theorem keysOf_removeKeyL_subset (l : List (String × MessageRecord)) (k x : String) :
    x ∈ keysOf (removeKeyL l k) → x ∈ keysOf l := by
  induction l with
  | nil => intro h; simp [removeKeyL] at h; exact h
  | cons p t ih =>
    intro h
    obtain ⟨k1, v1⟩ := p
    by_cases hk : k1 = k
    · subst hk
      simp [removeKeyL] at h
      exact List.mem_cons_of_mem _ h
    · simp only [removeKeyL, if_neg hk, keysOf, List.map_cons, List.mem_cons] at h ⊢
      rcases h with h1 | h2
      · exact Or.inl h1
      · exact Or.inr (ih h2)

/-- Store invariant maintained by every operation on non-empty keys:
    fixed capacity, size within the bound, all keys non-empty. -/
def storeInv (N : Nat) (s : Storage) : Prop :=
  s.maxEntries = N ∧ s.entries.length ≤ N ∧ ∀ k ∈ keysOf s.entries, k ≠ ""

theorem set_preserves_inv (N : Nat) (s : Storage) (key : String) (v : MessageRecord) :
    1 ≤ N → storeInv N s → key ≠ "" → storeInv N (s.set key v) := by
  intro hN ⟨hmax, hlen, hkeys⟩ hkey
  simp only [Storage.set]
  by_cases hcond : (lookupKeyL s.entries key).isSome = false ∧
      s.maxEntries ≤ s.entries.length
  · rw [if_pos hcond]
    obtain ⟨hmiss, hcap⟩ := hcond
    have hlenN : s.entries.length = N := by omega
    cases hent : s.entries with
    | nil => rw [hent] at hlenN; simp at hlenN; omega
    | cons p t =>
      obtain ⟨fk, fv⟩ := p
      have hfk : fk ≠ "" := by
        apply hkeys
        rw [hent]
        simp [keysOf]
      have hkeymiss : key ∉ keysOf s.entries := by
        intro hc
        rw [lookup_isSome_of_mem s.entries key hc] at hmiss
        cases hmiss
      have hkeyt : key ∉ keysOf t := by
        intro hc
        apply hkeymiss
        rw [hent]
        simp [keysOf] at hc ⊢
        exact Or.inr hc
      simp only [List.head?_cons]
      rw [if_neg hfk]
      have hrm : removeKeyL ((fk, fv) :: t) fk = t := by simp [removeKeyL]
      rw [hrm, setKeyL_not_mem t key v hkeyt]
      refine ⟨hmax, ?_, ?_⟩
      · have : t.length + 1 = N := by
          rw [hent] at hlenN
          simpa using hlenN
        simp
        omega
      · intro k hk
        rw [keysOf_append] at hk
        rcases List.mem_append.mp hk with h1 | h2
        · apply hkeys
          rw [hent]
          simp [keysOf] at h1 ⊢
          exact Or.inr h1
        · simp [keysOf] at h2
          rw [h2]
          exact hkey
  · rw [if_neg hcond]
    by_cases hmem : key ∈ keysOf s.entries
    · refine ⟨hmax, ?_, ?_⟩
      · rw [length_setKeyL_of_mem s.entries key v hmem]
        exact hlen
      · intro k hk
        rcases keysOf_setKeyL_mem s.entries key k v hk with h1 | h1
        · exact hkeys k h1
        · rw [h1]; exact hkey
    · have hmiss : (lookupKeyL s.entries key).isSome = false := by
        rw [lookup_none_of_not_mem s.entries key hmem]
        rfl
      have hlt : s.entries.length < s.maxEntries := by
        by_contra hc
        exact hcond ⟨hmiss, by omega⟩
      rw [setKeyL_not_mem s.entries key v hmem]
      refine ⟨hmax, ?_, ?_⟩
      · simp
        omega
      · intro k hk
        rw [keysOf_append] at hk
        rcases List.mem_append.mp hk with h1 | h2
        · exact hkeys k h1
        · simp [keysOf] at h2
          rw [h2]
          exact hkey

theorem delete_preserves_inv (N : Nat) (s : Storage) (key : String) :
    storeInv N s → storeInv N (s.delete key) := by
  intro ⟨hmax, hlen, hkeys⟩
  refine ⟨hmax, ?_, ?_⟩
  · exact le_trans (length_removeKeyL_le s.entries key) hlen
  · intro k hk
    exact hkeys k (keysOf_removeKeyL_subset s.entries key k hk)

/-- Keys written by a set operation must be non-empty; delete is free. -/
def opKeyNonempty : StoreOp → Prop
  | .set k _ => k ≠ ""
  | .del _ => True

instance : DecidablePred opKeyNonempty := by
  intro op
  cases op with
  | set k v => exact inferInstanceAs (Decidable (k ≠ ""))
  | del k => exact inferInstanceAs (Decidable True)

theorem runOps_preserves_inv (N : Nat) (ops : List StoreOp) (s : Storage) :
    1 ≤ N → storeInv N s → (∀ op ∈ ops, opKeyNonempty op) →
    storeInv N (runOps s ops) := by
  induction ops generalizing s with
  | nil => intro _ hs _; exact hs
  | cons op rest ih =>
    intro hN hs hops
    have hstep : storeInv N (applyOp s op) := by
      cases op with
      | set k v =>
        exact set_preserves_inv N s k v hN hs (hops _ (List.mem_cons_self _ _))
      | del k => exact delete_preserves_inv N s k hs
    exact ih (applyOp s op) hN hstep (fun o ho => hops o (List.mem_cons_of_mem op ho))

/-- Inserting key-record pairs one by one through Storage.set. -/
def insertAll (s : Storage) (kvs : List (String × MessageRecord)) : Storage :=
  kvs.foldl (fun st p => st.set p.1 p.2) s

theorem insertAll_fresh (kvs : List (String × MessageRecord)) (s : Storage) :
    s.entries.length + kvs.length ≤ s.maxEntries →
    (keysOf s.entries ++ keysOf kvs).Nodup →
    (insertAll s kvs).entries = s.entries ++ kvs ∧
    (insertAll s kvs).maxEntries = s.maxEntries := by
  induction kvs generalizing s with
  | nil => intro _ _; simp [insertAll]
  | cons p rest ih =>
    intro hlen hnd
    obtain ⟨k, v⟩ := p
    have hknotmem : k ∉ keysOf s.entries := by
      rw [List.nodup_append] at hnd
      intro hc
      exact hnd.2.2 hc (by simp [keysOf])
    have hstep : (s.set k v).entries = s.entries ++ [(k, v)] ∧
        (s.set k v).maxEntries = s.maxEntries := by
      simp only [Storage.set]
      have hnocap : ¬((lookupKeyL s.entries k).isSome = false ∧
          s.maxEntries ≤ s.entries.length) := by
        intro ⟨_, hc⟩
        simp at hlen
        omega
      rw [if_neg hnocap, setKeyL_not_mem s.entries k v hknotmem]
      exact ⟨rfl, trivial⟩
    have hrec := ih (s.set k v)
      (by rw [hstep.1, hstep.2]; simp; simp at hlen; omega)
      (by
        rw [hstep.1, keysOf_append]
        have : (keysOf s.entries ++ keysOf [(k, v)]) ++ keysOf rest
            = keysOf s.entries ++ keysOf ((k, v) :: rest) := by
          simp [keysOf]
        rw [this]
        exact hnd)
    have hfold : insertAll s ((k, v) :: rest) = insertAll (s.set k v) rest := rfl
    rw [hfold, hrec.1, hrec.2, hstep.1, hstep.2]
    simp

theorem set_evict_step (s : Storage) (k0 key : String) (v0 v : MessageRecord)
    (t : List (String × MessageRecord)) :
    s.entries = (k0, v0) :: t → k0 ≠ "" → key ∉ keysOf s.entries →
    s.maxEntries ≤ s.entries.length →
    (s.set key v).entries = t ++ [(key, v)] := by
  intro hent hk0 hmiss hcap
  simp only [Storage.set]
  have hlk : (lookupKeyL s.entries key).isSome = false := by
    rw [lookup_none_of_not_mem s.entries key hmiss]
    rfl
  rw [if_pos ⟨hlk, hcap⟩, hent]
  simp only [List.head?, if_neg hk0]
  have hrm : removeKeyL ((k0, v0) :: t) k0 = t := by simp [removeKeyL]
  have hkeyt : key ∉ keysOf t := by
    intro hc
    apply hmiss
    rw [hent]
    simp [keysOf] at hc ⊢
    exact Or.inr hc
  rw [hrm, setKeyL_not_mem t key v hkeyt]

/-- Record value used in concrete storage scenarios. -/
def recX : MessageRecord := ⟨"C", "1", "2", none, none⟩

/-- Claim C5, counterexample: with configured capacity 0, a single set
    leaves the store at size 1, exceeding the bound — the eviction guard
    reads the first key of an empty map, gets a falsy value, skips the
    eviction and inserts anyway. -/
theorem storage_bound_cex :
    ((Storage.empty 0).set "a" recX).size = 1 ∧ ¬(1 ≤ 0) :=
  ⟨by decide, by omega⟩

/-- Claim C5, amended: for every capacity N ≥ 1 and every sequence of
    set/get/delete operations whose set keys are non-empty, the store size
    never exceeds N (get does not change the store and is omitted from the
    operation list); inserting N+1 distinct non-empty keys into an empty
    store of capacity N evicts exactly the first-inserted key, leaving all
    later keys resolvable; and a set always leaves its own key resolvable,
    so eviction never removes the key being written.  For capacity 0, or
    when the oldest key is the empty string, the source skips the eviction
    and the bound can be exceeded. -/
theorem storage_bound_fifo (N : Nat) (ops : List StoreOp) (k0 : String)
    (v0 : MessageRecord) (rest : List (String × MessageRecord)) (s : Storage)
    (key : String) (v : MessageRecord) :
    (1 ≤ N → (∀ op ∈ ops, opKeyNonempty op) →
      (runOps (Storage.empty N) ops).size ≤ N) ∧
    (1 ≤ N → rest.length = N → (keysOf ((k0, v0) :: rest)).Nodup →
      (∀ k ∈ keysOf ((k0, v0) :: rest), k ≠ "") →
      (insertAll (Storage.empty N) ((k0, v0) :: rest)).get k0 = none ∧
      (∀ p ∈ rest,
        ((insertAll (Storage.empty N) ((k0, v0) :: rest)).get p.1).isSome = true) ∧
      (insertAll (Storage.empty N) ((k0, v0) :: rest)).size = N) ∧
    ((s.set key v).get key = some v) := by
  refine ⟨?_, ?_, ?_⟩
  · intro hN hops
    have hinv : storeInv N (Storage.empty N) := by
      refine ⟨rfl, by simp [Storage.empty], ?_⟩
      intro k hk
      simp [Storage.empty, keysOf] at hk
    exact (runOps_preserves_inv N ops (Storage.empty N) hN hinv hops).2.1
  · intro hN hrestlen hnd hkeys
    have hrestne : rest ≠ [] := by
      intro hc
      rw [hc] at hrestlen
      simp at hrestlen
      omega
    obtain ⟨mid, lastP, hsplit⟩ : ∃ mid lastP, rest = mid ++ [lastP] :=
      ⟨rest.dropLast, rest.getLast hrestne,
        (List.dropLast_append_getLast hrestne).symm⟩
    subst hsplit
    have hmidlen : mid.length = N - 1 := by
      simp at hrestlen
      omega
    have hk0ne : k0 ≠ "" := hkeys k0 (by simp [keysOf])
    have hndk : (k0 :: (keysOf mid ++ [lastP.1])).Nodup := by
      simpa [keysOf] using hnd
    obtain ⟨hk0nm, hndtail⟩ := List.nodup_cons.mp hndk
    have hl1mid : lastP.1 ∉ keysOf mid := by
      rw [List.nodup_append] at hndtail
      intro hc
      exact hndtail.2.2 hc (by simp)
    have hl1k0 : lastP.1 ≠ k0 := by
      intro hc
      exact hk0nm (by rw [← hc]; simp)
    have hfoldsplit : insertAll (Storage.empty N) ((k0, v0) :: (mid ++ [lastP]))
        = insertAll (insertAll (Storage.empty N) ((k0, v0) :: mid)) [lastP] := by
      have hassemble : (k0, v0) :: (mid ++ [lastP]) = ((k0, v0) :: mid) ++ [lastP] := by
        simp
      rw [hassemble]
      unfold insertAll
      rw [List.foldl_append]
    have hfront := insertAll_fresh ((k0, v0) :: mid) (Storage.empty N)
      (by simp [Storage.empty]; omega)
      (by
        simp only [Storage.empty, keysOf, List.map_nil, List.nil_append, List.map_cons]
        exact List.nodup_cons.mpr
          ⟨fun hc => hk0nm (List.mem_append.mpr (Or.inl hc)),
           (List.nodup_append.mp hndtail).1⟩)
    have hfrontent : (insertAll (Storage.empty N) ((k0, v0) :: mid)).entries
        = (k0, v0) :: mid := by
      rw [hfront.1]
      simp [Storage.empty]
    have hfrontmax : (insertAll (Storage.empty N) ((k0, v0) :: mid)).maxEntries = N := by
      rw [hfront.2]
      rfl
    have hl1notfront : lastP.1 ∉ keysOf
        (insertAll (Storage.empty N) ((k0, v0) :: mid)).entries := by
      rw [hfrontent]
      intro hc
      simp [keysOf] at hc
      rcases hc with hc | hc
      · exact hl1k0 hc
      · exact hl1mid (by simpa [keysOf] using hc)
    have hcap : (insertAll (Storage.empty N) ((k0, v0) :: mid)).maxEntries
        ≤ (insertAll (Storage.empty N) ((k0, v0) :: mid)).entries.length := by
      rw [hfrontmax, hfrontent]
      simp
      omega
    have hlaststep : insertAll (insertAll (Storage.empty N) ((k0, v0) :: mid)) [lastP]
        = (insertAll (Storage.empty N) ((k0, v0) :: mid)).set lastP.1 lastP.2 := rfl
    have hevict := set_evict_step (insertAll (Storage.empty N) ((k0, v0) :: mid))
      k0 lastP.1 v0 lastP.2 mid hfrontent hk0ne hl1notfront hcap
    have hfinalent : (insertAll (Storage.empty N) ((k0, v0) :: (mid ++ [lastP]))).entries
        = mid ++ [lastP] := by
      rw [hfoldsplit, hlaststep]
      have : (lastP.1, lastP.2) = lastP := rfl
      rw [hevict, this]
    have hk0nrest : k0 ∉ keysOf (mid ++ [lastP]) := by
      rw [keysOf_append]
      intro hc
      apply hk0nm
      simpa [keysOf] using hc
    refine ⟨?_, ?_, ?_⟩
    · unfold Storage.get
      rw [hfinalent]
      exact lookup_none_of_not_mem _ k0 hk0nrest
    · intro p hp
      unfold Storage.get
      rw [hfinalent]
      apply lookup_isSome_of_mem
      simp only [keysOf]
      exact List.mem_map_of_mem Prod.fst hp
    · unfold Storage.size
      rw [hfinalent]
      simp
      omega
  · simp only [Storage.set, Storage.get]
    exact lookup_setKeyL_self _ key v

/-- Claim C5, witness: capacity 2, three distinct non-empty keys — the
    size stays within the bound, the first-inserted key becomes
    unresolvable, and a set always resolves its own key. -/
theorem storage_bound_fifo_witness :
    (runOps (Storage.empty 2) [StoreOp.set "a" recX, StoreOp.set "b" recX,
      StoreOp.set "c" recX]).size ≤ 2 ∧
    (insertAll (Storage.empty 2) [("a", recX), ("b", recX), ("c", recX)]).get "a"
      = none ∧
    ((Storage.empty 2).set "x" recX).get "x" = some recX := by
  have h := storage_bound_fifo 2
    [StoreOp.set "a" recX, StoreOp.set "b" recX, StoreOp.set "c" recX]
    "a" recX [("b", recX), ("c", recX)] (Storage.empty 2) "x" recX
  exact ⟨h.1 (by omega) (by decide),
    (h.2.1 (by omega) (by decide) (by decide) (by decide)).1, h.2.2⟩

end PRBot
